import Mathlib

set_option autoImplicit false

/-!
Verification of the elles224 stock-management application.

The Financial Aggregator of the application lives in the Finance page
(`calculateMetrics`, `getSalesForTable`, `getBestSellers`); it is embedded
here faithfully, with JavaScript numbers modelled as rationals, dates as
records carrying the observations the code makes of a `Date` object
(`getTime`, `getMonth`, `getFullYear`), and the stable Array.prototype.sort
modelled by the stable insertion sort of Mathlib.

The backend Movement Ledger (validation and stock mutation) is not part of
the available sources; it is modelled from the specification where a claim
needs it, in the `Ledger` namespace.
-/

namespace Elles

/-! ## Data model, from the Finance page source -/

/-- Movement type enum from the source: `movement_type: "purchase" | "sale"`. -/
inductive MovementType where
  | purchase
  | sale
deriving DecidableEq

/-- StockItem record from the source interface. -/
structure StockItem where
  id : ℤ
  reference : String
  name : String
  quantity : ℚ
  unit_price : ℚ
  total_value : ℚ
deriving DecidableEq

/-- A date as observed by the aggregator code: the numeric timestamp
(`getTime`), the calendar month (`getMonth`) and the year (`getFullYear`). -/
structure Date where
  time : ℤ
  month : ℤ
  year : ℤ
deriving DecidableEq

/-- Movement record from the source interface; `stock` is the stock item
payload embedded in the movement as delivered by the movements endpoint. -/
structure Movement where
  id : ℤ
  date : Date
  stock_id : ℤ
  movement_type : MovementType
  quantity : ℚ
  discount_percent : ℚ
  stock : StockItem
deriving DecidableEq

/-- Date-range state of the Finance page. -/
structure DateRange where
  startDate : Date
  endDate : Date
deriving DecidableEq

/-- Result record of `calculateMetrics`. -/
structure FinancialMetrics where
  totalRevenue : ℚ
  monthlyRevenue : ℚ
  totalSales : ℕ
  averageDiscount : ℚ
  totalPurchases : ℕ
  netCashFlow : ℚ
deriving DecidableEq

/-- Discounted unit price, inlined in the source as
`sale.stock.unit_price * (1 - sale.discount_percent / 100)`. -/
def priceAfterDiscount (m : Movement) : ℚ :=
  m.stock.unit_price * (1 - m.discount_percent / 100)

/-- Range filter of the source:
`saleDate >= start && saleDate <= end` on parsed dates. -/
def inRangeB (range : DateRange) (m : Movement) : Bool :=
  decide (range.startDate.time ≤ m.date.time) && decide (m.date.time ≤ range.endDate.time)

/-- Faithful embedding of `calculateMetrics` from the Finance page.
`now` stands for the `new Date()` the code takes while computing the
monthly filter. -/
def calculateMetrics (movements : List Movement) (dateRange : DateRange)
    (now : Date) : FinancialMetrics :=
  let sales := movements.filter fun m => m.movement_type == MovementType.sale
  let purchases := movements.filter fun m => m.movement_type == MovementType.purchase
  let filteredSales := sales.filter (inRangeB dateRange)
  let totalRevenue := filteredSales.foldl
    (fun sum sale => sum + priceAfterDiscount sale * sale.quantity) 0
  let monthlyRevenue :=
    (sales.filter fun sale => sale.date.month == now.month && sale.date.year == now.year).foldl
      (fun sum sale => sum + priceAfterDiscount sale * sale.quantity) 0
  let totalSales := filteredSales.length
  let totalPurchases := purchases.length
  let averageDiscount :=
    if 0 < filteredSales.length then
      (filteredSales.foldl (fun sum sale => sum + sale.discount_percent) 0)
        / (filteredSales.length : ℚ)
    else 0
  let totalPurchaseCost := purchases.foldl
    (fun sum purchase => sum + purchase.stock.unit_price * purchase.quantity) 0
  let netCashFlow := totalRevenue - totalPurchaseCost
  { totalRevenue := totalRevenue
    monthlyRevenue := monthlyRevenue
    totalSales := totalSales
    averageDiscount := averageDiscount
    totalPurchases := totalPurchases
    netCashFlow := netCashFlow }

/-- Order in which the sales table sorts: descending by date timestamp.
This is the comparator `(a, b) => new Date(b.date).getTime() - new Date(a.date).getTime()`. -/
def dateGe (a b : Movement) : Prop := b.date.time ≤ a.date.time

instance : DecidableRel dateGe := fun a b =>
  inferInstanceAs (Decidable (b.date.time ≤ a.date.time))

instance : IsTotal Movement dateGe := ⟨fun a b => le_total b.date.time a.date.time⟩

instance : IsTrans Movement dateGe := ⟨fun _ _ _ hab hbc => le_trans hbc hab⟩

/-- Faithful embedding of `getSalesForTable`: filter the sales, filter by
the date range, then stable-sort descending by date. -/
def getSalesForTable (movements : List Movement) (dateRange : DateRange) : List Movement :=
  List.insertionSort dateGe
    (((movements.filter fun m => m.movement_type == MovementType.sale).filter
      (inRangeB dateRange)))

/-- Entry of the best-sellers list: `{ name, quantity, revenue }`. -/
structure BestSellerEntry where
  name : String
  quantity : ℚ
  revenue : ℚ
deriving DecidableEq

/-- Best-sellers comparator order: descending by quantity
(`(a, b) => b.quantity - a.quantity`). -/
def qtyGe (a b : BestSellerEntry) : Prop := b.quantity ≤ a.quantity

instance : DecidableRel qtyGe := fun a b =>
  inferInstanceAs (Decidable (b.quantity ≤ a.quantity))

instance : IsTotal BestSellerEntry qtyGe := ⟨fun a b => le_total b.quantity a.quantity⟩

instance : IsTrans BestSellerEntry qtyGe := ⟨fun _ _ _ hab hbc => le_trans hbc hab⟩

/-- The sales of a movement list, as filtered by `getBestSellers`. -/
def salesOf (movements : List Movement) : List Movement :=
  movements.filter fun m => m.movement_type == MovementType.sale

/-- One step of the grouping `Map` of `getBestSellers`: update the entry of
the item name in place if present (JavaScript `Map.set` keeps the original
insertion position), append a fresh entry otherwise. -/
def upsertSale (sale : Movement) : List BestSellerEntry → List BestSellerEntry
  | [] => [⟨sale.stock.name, sale.quantity, priceAfterDiscount sale * sale.quantity⟩]
  | e :: t =>
    if e.name = sale.stock.name then
      ⟨e.name, e.quantity + sale.quantity,
        e.revenue + priceAfterDiscount sale * sale.quantity⟩ :: t
    else e :: upsertSale sale t

/-- The grouped per-name totals of `getBestSellers`, in `Map` insertion
order (`Array.from(itemSales.entries()).map(...)`). -/
def groupSales (movements : List Movement) : List BestSellerEntry :=
  (salesOf movements).foldl (fun acc sale => upsertSale sale acc) []

/-- The grouped totals, stable-sorted descending by quantity. -/
def bestSellersSorted (movements : List Movement) : List BestSellerEntry :=
  List.insertionSort qtyGe (groupSales movements)

/-- Faithful embedding of `getBestSellers`: group the sales by item name,
sort descending by quantity, keep the first five (`.slice(0, 5)`); the
source function takes no limit argument. -/
def getBestSellers (movements : List Movement) : List BestSellerEntry :=
  (bestSellersSorted movements).take 5

/-! ## Finance page state machine, for the purity claim -/

/-- Observable state of the Finance page that feeds `calculateMetrics`. -/
structure FinanceState where
  movements : List Movement
  dateRange : DateRange
deriving DecidableEq

/-- Events of the Finance page: the two state setters the component owns,
and a metrics evaluation. -/
inductive FinanceEvent where
  | setMovements (ms : List Movement)
  | setDateRange (r : DateRange)
  | compute

/-- One event step. The `compute` branch returns the state untouched:
the body of `calculateMetrics` in the source performs no state update. -/
def stepFinance (now : Date) (s : FinanceState) :
    FinanceEvent → FinanceState × Option FinancialMetrics
  | .setMovements ms => ({ s with movements := ms }, none)
  | .setDateRange r => ({ s with dateRange := r }, none)
  | .compute => (s, some (calculateMetrics s.movements s.dateRange now))

/-- Run a sequence of Finance page events, collecting the metric outputs. -/
def runFinance (now : Date) (s : FinanceState) :
    List FinanceEvent → FinanceState × List FinancialMetrics
  | [] => (s, [])
  | e :: es =>
    let step := stepFinance now s e
    let rest := runFinance now step.1 es
    (rest.1, step.2.toList ++ rest.2)

/-! ## System configuration, for the deleted-item claim -/

/-- Whether an item id resolves to a live item of the registry. -/
def itemLive (registry : List StockItem) (id : ℤ) : Bool :=
  registry.any fun s => s.id == id

/-- Best sellers as computed in a system configuration that also carries
the item registry. The Finance page fetches only the movements endpoint,
so the registry never flows into the computation. -/
def financeBestSellers (_registry : List StockItem) (movements : List Movement) :
    List BestSellerEntry :=
  getBestSellers movements

/-- Modelled from the spec: the movements endpoint returns the ledger in
reverse chronological order, that is the reverse of append order; the
backend that serialises this order is not part of the available sources. -/
def fetchedMovements (ledger : List Movement) : List Movement :=
  ledger.reverse

/-! ## Movement Ledger, modelled from the specification

The backend that validates and applies movements is not part of the
available sources; the definitions of this namespace follow the state
machine of the specification (validate, check availability, apply,
append). -/

namespace Ledger

/-- Registry item: quantity is a non-negative integer, price a decimal. -/
structure Item where
  id : ℕ
  name : String
  quantity : ℕ
  unit_price : ℚ
deriving DecidableEq

/-- Movement type of a ledger request. -/
inductive MType where
  | purchase
  | sale
deriving DecidableEq

/-- A movement request as submitted by a caller; the quantity is an
arbitrary integer so that the non-positive-quantity validation is
meaningful. -/
structure Request where
  item_id : ℕ
  mtype : MType
  quantity : ℤ
  discount_percent : ℚ
deriving DecidableEq

/-- An appended ledger record of a successfully applied movement. -/
structure Entry where
  item_id : ℕ
  mtype : MType
  quantity : ℕ
  discount_percent : ℚ
deriving DecidableEq

/-- Failure taxonomy of movement application. -/
inductive Error where
  | ItemNotFound
  | InvalidQuantity
  | InvalidDiscount
  | InsufficientStock
deriving DecidableEq

/-- State of the core: the item registry and the append-only ledger. -/
structure State where
  items : ℕ → Option Item
  ledger : List Entry

/-- Modelled from the spec: single-shot movement application. Validate
(item exists, quantity positive, discount of a sale within bounds), check
availability for a sale, then update the item quantity and append the
ledger record; every failure is rejected before any mutation. -/
def applyMovement (s : State) (r : Request) : Except Error State :=
  match s.items r.item_id with
  | none => .error .ItemNotFound
  | some item =>
    if r.quantity ≤ 0 then .error .InvalidQuantity
    else if r.mtype = .sale ∧ (r.discount_percent < 0 ∨ 100 < r.discount_percent) then
      .error .InvalidDiscount
    else if r.mtype = .sale then
      if item.quantity < r.quantity.toNat then .error .InsufficientStock
      else
        .ok { items := fun id =>
                if id = r.item_id then
                  some { item with quantity := item.quantity - r.quantity.toNat }
                else s.items id,
              ledger := s.ledger ++ [⟨r.item_id, r.mtype, r.quantity.toNat, r.discount_percent⟩] }
    else
      .ok { items := fun id =>
              if id = r.item_id then
                some { item with quantity := item.quantity + r.quantity.toNat }
              else s.items id,
            ledger := s.ledger ++ [⟨r.item_id, r.mtype, r.quantity.toNat, r.discount_percent⟩] }

/-- Apply a sequence of requests, keeping the previous state whenever a
request is rejected. -/
def applyAll (s : State) : List Request → State
  | [] => s
  | r :: rs =>
    match applyMovement s r with
    | .ok s' => applyAll s' rs
    | .error _ => applyAll s rs

/-- Sum of the quantities of the applied PURCHASE records of an item. -/
def purchaseSum (id : ℕ) (l : List Entry) : ℤ :=
  ((l.filter fun e => e.item_id == id && e.mtype == MType.purchase).map
    fun e => (e.quantity : ℤ)).sum

/-- Sum of the quantities of the applied SALE records of an item. -/
def saleSum (id : ℕ) (l : List Entry) : ℤ :=
  ((l.filter fun e => e.item_id == id && e.mtype == MType.sale).map
    fun e => (e.quantity : ℤ)).sum

/-- Scenario registry of the specification: one item, reference SKU1,
quantity 0, price 50. -/
def stateSKU1 : State where
  items := fun id => if id = 1 then some ⟨1, "SKU1", 0, 50⟩ else none
  ledger := []

/-- Scenario requests: purchase 10, sell 4, then try to sell 10. -/
def requestsSKU1 : List Request :=
  [⟨1, MType.purchase, 10, 0⟩, ⟨1, MType.sale, 4, 0⟩, ⟨1, MType.sale, 10, 0⟩]

/-- State after the first two scenario movements: quantity 6. -/
def stateQty6 : State where
  items := fun id => if id = 1 then some ⟨1, "SKU1", 6, 50⟩ else none
  ledger := [⟨1, MType.purchase, 10, 0⟩, ⟨1, MType.sale, 4, 0⟩]

/-- Scenario over-sale request: sell 10 with only 6 in stock. -/
def requestOversell : Request := ⟨1, MType.sale, 10, 0⟩

end Ledger

/-! ## Concrete fixtures for counterexamples and witnesses -/

/-- Item A of the best-sellers ordering scenario. -/
def stockA : StockItem := ⟨1, "A", "A", 0, 10, 0⟩

/-- Item B of the best-sellers ordering scenario. -/
def stockB : StockItem := ⟨2, "B", "B", 0, 20, 0⟩

/-- A date with a plain timestamp in January 2025. -/
def dmk (t : ℤ) : Date := ⟨t, 0, 2025⟩

/-- Sale of five units of item A. -/
def saleA : Movement := ⟨1, dmk 1, 1, MovementType.sale, 5, 0, stockA⟩

/-- Sale of eight units of item B. -/
def saleB : Movement := ⟨2, dmk 2, 2, MovementType.sale, 8, 0, stockB⟩

/-- The movement list of the best-sellers ordering scenario: item A sold
with total quantity 5, item B with total quantity 8. -/
def movsAB : List Movement := [saleA, saleB]

/-- Last-known snapshot of an item that is no longer in the registry. -/
def phantomStock : StockItem := ⟨1, "PH", "Phantom", 0, 100, 0⟩

/-- A sale movement whose item id no longer resolves to a live item; the
movement still embeds the last-known stock snapshot. -/
def danglingSale : Movement := ⟨1, dmk 5, 1, MovementType.sale, 2, 10, phantomStock⟩

/-- Movement list containing only the dangling sale. -/
def movsDangling : List Movement := [danglingSale]

/-- Registry in which the referenced item is still live. -/
def regLive : List StockItem := [phantomStock]

/-- Registry from which the referenced item has been deleted. -/
def regGone : List StockItem := []

/-- A date range covering the dangling sale. -/
def rangeAll : DateRange := ⟨dmk 0, dmk 10⟩

/-- The current date used in the dangling-sale evaluation. -/
def nowD : Date := dmk 5

end Elles

namespace Elles

/-! ## Helper lemmas -/

/-- A left fold that adds `f x` at each step computes the sum of the map. -/
theorem foldl_add_map {α : Type} (f : α → ℚ) (l : List α) (a : ℚ) :
    l.foldl (fun s x => s + f x) a = a + (l.map f).sum := by
  induction l generalizing a with
  | nil => simp
  | cons x xs ih => simp [ih, add_assoc]

/-- Ordered insertion commutes with filtering by a class of elements that
the inserted element precedes-or-ties: the inserted element lands right at
the front of that class. -/
theorem filter_orderedInsert {α : Type} (r : α → α → Prop) [DecidableRel r]
    (p : α → Bool) (a : α) (l : List α)
    (hp : p a = true → ∀ b, p b = true → r a b) :
    (l.orderedInsert r a).filter p = if p a then a :: l.filter p else l.filter p := by
  induction l with
  | nil => by_cases hpa : p a = true <;> simp [List.orderedInsert, List.filter_cons, hpa]
  | cons b t ih =>
    by_cases hr : r a b
    · by_cases hpa : p a = true <;> simp [List.orderedInsert, hr, List.filter_cons, hpa]
    · by_cases hpa : p a = true
      · have hpb : ¬ p b = true := fun hb => hr (hp hpa b hb)
        simp [List.orderedInsert, hr, List.filter_cons, hpb, ih, hpa]
      · simp [List.orderedInsert, hr, List.filter_cons, ih, hpa]

/-- Stability of the insertion sort: filtering by a class of pairwise tied
elements returns them in their original order. -/
theorem filter_insertionSort {α : Type} (r : α → α → Prop) [DecidableRel r]
    (p : α → Bool) (hp : ∀ x y, p x = true → p y = true → r x y) :
    ∀ l : List α, (List.insertionSort r l).filter p = l.filter p := by
  intro l
  induction l with
  | nil => rfl
  | cons a t ih =>
    rw [List.insertionSort, filter_orderedInsert r p a _ (fun ha b hb => hp a b ha hb)]
    by_cases hpa : p a = true <;> simp [hpa, ih, List.filter_cons]

/-! ## Claim theorems -/

/-- C2: for every list of movements and date range, `totalRevenue` is the
sum, over the SALE movements whose date lies in the inclusive range, of
`unit_price × (1 − discount_percent/100) × quantity`, the unit price being
read from the item data current at aggregation time. -/
theorem C2_totalRevenue (movements : List Movement) (range : DateRange) (now : Date) :
    (calculateMetrics movements range now).totalRevenue
      = (((movements.filter fun m => m.movement_type == MovementType.sale).filter
          (inRangeB range)).map
          fun m => m.stock.unit_price * (1 - m.discount_percent / 100) * m.quantity).sum := by
  simp only [calculateMetrics]
  rw [foldl_add_map (fun sale => priceAfterDiscount sale * sale.quantity)]
  simp [priceAfterDiscount]

/-- C4: `netCashFlow` equals `totalRevenue` over the range minus the total
purchase cost, the latter summed over all PURCHASE movements with no
date-range filter, at `unit_price × quantity`. -/
theorem C4_netCashFlow (movements : List Movement) (range : DateRange) (now : Date) :
    (calculateMetrics movements range now).netCashFlow
      = (calculateMetrics movements range now).totalRevenue
        - ((movements.filter fun m => m.movement_type == MovementType.purchase).map
            fun m => m.stock.unit_price * m.quantity).sum := by
  simp only [calculateMetrics]
  rw [foldl_add_map (fun purchase : Movement => purchase.stock.unit_price * purchase.quantity)]
  simp

/-- C9: `averageDiscount` is the arithmetic mean of `discount_percent`
over the SALE movements in range, and 0 when the range has no sales. -/
theorem C9_averageDiscount (movements : List Movement) (range : DateRange) (now : Date) :
    (calculateMetrics movements range now).averageDiscount
      = if ((movements.filter fun m => m.movement_type == MovementType.sale).filter
            (inRangeB range)).length = 0 then 0
        else
          (((movements.filter fun m => m.movement_type == MovementType.sale).filter
            (inRangeB range)).map fun m => m.discount_percent).sum
          / (((movements.filter fun m => m.movement_type == MovementType.sale).filter
              (inRangeB range)).length : ℚ) := by
  simp only [calculateMetrics]
  rw [foldl_add_map (fun sale : Movement => sale.discount_percent)]
  simp only [zero_add]
  by_cases h : ((movements.filter fun m => m.movement_type == MovementType.sale).filter
      (inRangeB range)).length = 0
  · rw [if_pos h, if_neg (by omega)]
  · rw [if_neg h, if_pos (Nat.pos_of_ne_zero h)]

/-- C10: `monthlyRevenue` is independent of the selected date range — it
is derived from all SALE movements filtered only by the current calendar
month and year of `now`, never by the range filter. -/
theorem C10_monthlyRevenue_range_independent (movements : List Movement)
    (r₁ r₂ : DateRange) (now : Date) :
    (calculateMetrics movements r₁ now).monthlyRevenue
      = (calculateMetrics movements r₂ now).monthlyRevenue
    ∧ (calculateMetrics movements r₁ now).monthlyRevenue
      = (((movements.filter fun m => m.movement_type == MovementType.sale).filter
          fun m => m.date.month == now.month && m.date.year == now.year).map
          fun m => m.stock.unit_price * (1 - m.discount_percent / 100) * m.quantity).sum := by
  refine ⟨rfl, ?_⟩
  simp only [calculateMetrics]
  rw [foldl_add_map (fun sale => priceAfterDiscount sale * sale.quantity)]
  simp [priceAfterDiscount]

/-- C6: the sales table consists exactly of the SALE movements of the
ledger whose date lies in the range, sorted descending by date, and
movements with equal dates appear in reverse of ledger append order
(the movements endpoint delivers the ledger in reverse append order and
the sort is stable). -/
theorem C6_salesTable (ledger : List Movement) (range : DateRange) :
    List.Perm (getSalesForTable (fetchedMovements ledger) range)
      ((ledger.filter fun m => m.movement_type == MovementType.sale).filter (inRangeB range))
    ∧ List.Sorted dateGe (getSalesForTable (fetchedMovements ledger) range)
    ∧ ∀ d : ℤ,
        (getSalesForTable (fetchedMovements ledger) range).filter
            (fun m => m.date.time == d)
          = (((ledger.filter fun m => m.movement_type == MovementType.sale).filter
              (inRangeB range)).filter fun m => m.date.time == d).reverse := by
  refine ⟨?_, ?_, ?_⟩
  · unfold getSalesForTable fetchedMovements
    refine (List.perm_insertionSort _ _).trans ?_
    rw [List.filter_reverse, List.filter_reverse]
    exact List.reverse_perm _
  · exact List.sorted_insertionSort _ _
  · intro d
    unfold getSalesForTable fetchedMovements
    rw [filter_insertionSort dateGe (fun m => m.date.time == d) ?_]
    · rw [List.filter_reverse, List.filter_reverse, List.filter_reverse]
    · intro x y hx hy
      rw [beq_iff_eq] at hx hy
      exact le_of_eq (hy.trans hx.symm)

/-- One upsert step commutes with filtering by an item name, adding the
increment of the sale exactly when the sale carries that name; stated for
any numeric projection compatible with the upsert. -/
theorem upsert_filter_sum (sale : Movement) (n : String)
    (f : BestSellerEntry → ℚ) (g : Movement → ℚ)
    (hfresh : f ⟨sale.stock.name, sale.quantity, priceAfterDiscount sale * sale.quantity⟩
      = g sale)
    (hupd : ∀ e : BestSellerEntry,
      f ⟨e.name, e.quantity + sale.quantity,
         e.revenue + priceAfterDiscount sale * sale.quantity⟩ = f e + g sale) :
    ∀ acc : List BestSellerEntry,
      (((upsertSale sale acc).filter fun e => e.name == n).map f).sum
        = ((acc.filter fun e => e.name == n).map f).sum
          + (if sale.stock.name == n then g sale else 0) := by
  intro acc
  induction acc with
  | nil =>
    by_cases hn : (sale.stock.name == n) = true
    all_goals simp [upsertSale, List.filter_cons, hn, hfresh]
  | cons e t ih =>
    simp only [upsertSale]
    by_cases heq : e.name = sale.stock.name
    · rw [if_pos heq]
      by_cases hn : (e.name == n) = true
      · have hsn : (sale.stock.name == n) = true := by
          rw [beq_iff_eq] at hn ⊢
          exact heq.symm.trans hn
        simp only [List.filter_cons]
        rw [if_pos hn, if_pos hn, List.map_cons, List.map_cons, List.sum_cons,
          List.sum_cons, hupd e, if_pos hsn]
        ring
      · have hsn : ¬ (sale.stock.name == n) = true := by
          rw [beq_iff_eq] at hn ⊢
          rw [← heq]; exact hn
        simp only [List.filter_cons]
        rw [if_neg hn, if_neg hn, if_neg hsn, add_zero]
    · rw [if_neg heq]
      by_cases hn : (e.name == n) = true
      · simp only [List.filter_cons]
        rw [if_pos hn, if_pos hn, List.map_cons, List.map_cons, List.sum_cons,
          List.sum_cons, ih]
        ring
      · simp only [List.filter_cons]
        rw [if_neg hn, if_neg hn, ih]

/-- Folding the grouping map over a list of sales adds, per item name, the
summed increments of the sales carrying that name. -/
theorem foldl_upsert_filter_sum (n : String)
    (f : BestSellerEntry → ℚ) (g : Movement → ℚ)
    (hfresh : ∀ sale : Movement,
      f ⟨sale.stock.name, sale.quantity, priceAfterDiscount sale * sale.quantity⟩ = g sale)
    (hupd : ∀ (sale : Movement) (e : BestSellerEntry),
      f ⟨e.name, e.quantity + sale.quantity,
         e.revenue + priceAfterDiscount sale * sale.quantity⟩ = f e + g sale) :
    ∀ (sales : List Movement) (acc : List BestSellerEntry),
      (((sales.foldl (fun a s => upsertSale s a) acc).filter fun e => e.name == n).map f).sum
        = ((acc.filter fun e => e.name == n).map f).sum
          + ((sales.filter fun m => m.stock.name == n).map g).sum := by
  intro sales
  induction sales with
  | nil => intro acc; simp
  | cons s ss ih =>
    intro acc
    rw [List.foldl_cons, ih (upsertSale s acc),
      upsert_filter_sum s n f g (hfresh s) (hupd s) acc]
    by_cases hn : (s.stock.name == n) = true
    all_goals simp [List.filter_cons, hn]
    all_goals ring

/-- C5 (amended): `getBestSellers` groups all SALE movements by item name
summing quantity and discounted revenue per name, stable-sorts descending
by total quantity, and truncates to the fixed limit 5; with sales of item
A of total quantity 5 and item B of total quantity 8 it returns the entry
of B first, followed by the entry of A. -/
theorem C5_bestSellers (movements : List Movement) :
    List.Sorted qtyGe (getBestSellers movements)
    ∧ (getBestSellers movements).length ≤ 5
    ∧ List.Perm (bestSellersSorted movements) (groupSales movements)
    ∧ (∀ q : ℚ, (bestSellersSorted movements).filter (fun e => e.quantity == q)
        = (groupSales movements).filter (fun e => e.quantity == q))
    ∧ (∀ n : String,
        (((groupSales movements).filter fun e => e.name == n).map
          (fun e => e.quantity)).sum
          = (((salesOf movements).filter fun m => m.stock.name == n).map
              fun m => m.quantity).sum)
    ∧ (∀ n : String,
        (((groupSales movements).filter fun e => e.name == n).map
          (fun e => e.revenue)).sum
          = (((salesOf movements).filter fun m => m.stock.name == n).map
              fun m => priceAfterDiscount m * m.quantity).sum)
    ∧ getBestSellers movsAB = [⟨"B", 8, 160⟩, ⟨"A", 5, 50⟩] := by
  refine ⟨?_, ?_, List.perm_insertionSort _ _, ?_, ?_, ?_, ?_⟩
  · exact (List.sorted_insertionSort _ _).sublist (List.take_sublist ..)
  · simp [getBestSellers]
  · intro q
    refine filter_insertionSort qtyGe (fun e => e.quantity == q) ?_ _
    intro x y hx hy
    rw [beq_iff_eq] at hx hy
    exact le_of_eq (hy.trans hx.symm)
  · intro n
    simpa using foldl_upsert_filter_sum n (fun e => e.quantity) (fun m => m.quantity)
      (fun _ => rfl) (fun _ _ => rfl) (salesOf movements) []
  · intro n
    simpa using foldl_upsert_filter_sum n (fun e => e.revenue)
      (fun m => priceAfterDiscount m * m.quantity)
      (fun _ => rfl) (fun _ _ => rfl) (salesOf movements) []
  · norm_num [getBestSellers, bestSellersSorted, groupSales, salesOf,
      movsAB, saleA, saleB, stockA, stockB, upsertSale,
      priceAfterDiscount, List.insertionSort, List.orderedInsert, qtyGe]

/-- C5 counterexample: the source `getBestSellers` takes no limit argument
and always keeps up to five entries, so on the scenario of the claim it
returns two entries, not the single entry for B that a limit of 1 would
give. -/
theorem C5_counterexample :
    (getBestSellers movsAB).length = 2 ∧ (getBestSellers movsAB).length ≠ 1 := by
  decide

/-- C7: the financial aggregation is deterministic and side-effect-free —
running the metrics computation twice over an unchanged Finance state
yields the same state back together with two identical outputs. -/
theorem C7_aggregation_pure (s : FinanceState) (now : Date) :
    runFinance now s [FinanceEvent.compute, FinanceEvent.compute]
      = (s, [calculateMetrics s.movements s.dateRange now,
             calculateMetrics s.movements s.dateRange now]) := rfl

/-- C8 counterexample: the report output carries no deletion marker — its
value is the same whether the referenced item is live or deleted, so no
reading of the output can equal the actual deletion status in both the
live-registry and the deleted-registry scenario. -/
theorem C8_counterexample :
    itemLive regLive 1 = true ∧ itemLive regGone 1 = false
    ∧ ¬ ∃ f : List BestSellerEntry → Bool,
        f (financeBestSellers regLive movsDangling) = itemLive regLive 1
        ∧ f (financeBestSellers regGone movsDangling) = itemLive regGone 1 := by
  refine ⟨by decide, by decide, ?_⟩
  rintro ⟨f, h1, h2⟩
  have hL : itemLive regLive 1 = true := by decide
  have hG : itemLive regGone 1 = false := by decide
  rw [hL] at h1
  rw [hG] at h2
  have hsame : financeBestSellers regLive movsDangling
      = financeBestSellers regGone movsDangling := rfl
  rw [hsame, h2] at h1
  exact Bool.noConfusion h1

/-- C8 (amended): when a SALE movement references a deleted item the
aggregation still computes, using the last-known name and price embedded
in the movement payload; the output contains no deleted-item flag and is
unchanged by the deletion of the item from the registry. -/
theorem C8_deleted_item_handling (movements : List Movement)
    (r₁ r₂ : List StockItem) :
    financeBestSellers r₁ movements = financeBestSellers r₂ movements
    ∧ getBestSellers movsDangling = [⟨"Phantom", 2, 180⟩]
    ∧ (calculateMetrics movsDangling rangeAll nowD).totalRevenue = 180 := by
  refine ⟨rfl, ?_, ?_⟩
  · norm_num [getBestSellers, bestSellersSorted, groupSales, salesOf,
      movsDangling, danglingSale, phantomStock, upsertSale,
      priceAfterDiscount, List.insertionSort, List.orderedInsert, qtyGe]
  · norm_num [calculateMetrics, movsDangling, danglingSale, phantomStock,
      priceAfterDiscount, inRangeB, rangeAll, nowD, dmk]

/-- A successful movement application appends exactly one ledger record
and performs exactly the quantity update of the request on the target
item, leaving every other item untouched. -/
theorem applyMovement_ok_cases (s : Ledger.State) (r : Ledger.Request) (s' : Ledger.State)
    (h : Ledger.applyMovement s r = .ok s') :
    ∃ item : Ledger.Item, s.items r.item_id = some item
      ∧ s'.ledger = s.ledger ++ [⟨r.item_id, r.mtype, r.quantity.toNat, r.discount_percent⟩]
      ∧ (∀ id, id ≠ r.item_id → s'.items id = s.items id)
      ∧ ((r.mtype ≠ Ledger.MType.sale
            ∧ s'.items r.item_id
              = some { item with quantity := item.quantity + r.quantity.toNat })
        ∨ (r.mtype = Ledger.MType.sale ∧ r.quantity.toNat ≤ item.quantity
            ∧ s'.items r.item_id
              = some { item with quantity := item.quantity - r.quantity.toNat })) := by
  cases hit : s.items r.item_id with
  | none =>
    simp only [Ledger.applyMovement, hit] at h
    exact Except.noConfusion h
  | some item =>
    simp only [Ledger.applyMovement, hit] at h
    by_cases hq : r.quantity ≤ 0
    · rw [if_pos hq] at h
      exact Except.noConfusion h
    · rw [if_neg hq] at h
      by_cases hd : r.mtype = Ledger.MType.sale
          ∧ (r.discount_percent < 0 ∨ 100 < r.discount_percent)
      · rw [if_pos hd] at h
        exact Except.noConfusion h
      · rw [if_neg hd] at h
        by_cases hty : r.mtype = Ledger.MType.sale
        · rw [if_pos hty] at h
          by_cases hex : item.quantity < r.quantity.toNat
          · rw [if_pos hex] at h
            exact Except.noConfusion h
          · rw [if_neg hex] at h
            have hs := Except.ok.inj h
            subst hs
            refine ⟨item, rfl, rfl, fun id hid => if_neg hid, Or.inr ⟨hty, ?_, ?_⟩⟩
            · omega
            · exact if_pos rfl
        · rw [if_neg hty] at h
          have hs := Except.ok.inj h
          subst hs
          exact ⟨item, rfl, rfl, fun id hid => if_neg hid,
            Or.inl ⟨hty, if_pos rfl⟩⟩

/-- The fold of movement applications only ever appends to the ledger. -/
theorem applyAll_ledger_extends (reqs : List Ledger.Request) :
    ∀ s : Ledger.State, ∃ t, (Ledger.applyAll s reqs).ledger = s.ledger ++ t := by
  induction reqs with
  | nil => intro s; exact ⟨[], by simp [Ledger.applyAll]⟩
  | cons r rs ih =>
    intro s
    cases happ : Ledger.applyMovement s r with
    | error e =>
      simp only [Ledger.applyAll, happ]
      exact ih s
    | ok s' =>
      simp only [Ledger.applyAll, happ]
      obtain ⟨t, ht⟩ := ih s'
      obtain ⟨item, _, hledg, _, _⟩ := applyMovement_ok_cases s r s' happ
      refine ⟨⟨r.item_id, r.mtype, r.quantity.toNat, r.discount_percent⟩ :: t, ?_⟩
      rw [ht, hledg, List.append_assoc, List.singleton_append]

/-- Quantity bookkeeping of the ledger fold: the final quantity of an item
is its starting quantity plus the purchases minus the sales recorded for
it among the newly appended ledger records. -/
theorem applyAll_quantity (reqs : List Ledger.Request) :
    ∀ (s : Ledger.State) (id : ℕ) (item₀ item : Ledger.Item),
      s.items id = some item₀ →
      (Ledger.applyAll s reqs).items id = some item →
      (item.quantity : ℤ)
        = (item₀.quantity : ℤ)
          + Ledger.purchaseSum id ((Ledger.applyAll s reqs).ledger.drop s.ledger.length)
          - Ledger.saleSum id ((Ledger.applyAll s reqs).ledger.drop s.ledger.length) := by
  induction reqs with
  | nil =>
    intro s id item₀ item h₀ h
    simp only [Ledger.applyAll] at h
    rw [h₀] at h
    cases h
    simp [Ledger.purchaseSum, Ledger.saleSum, List.drop_length, Ledger.applyAll]
  | cons r rs ih =>
    intro s id item₀ item h₀ h
    cases happ : Ledger.applyMovement s r with
    | error e =>
      simp only [Ledger.applyAll, happ] at h ⊢
      exact ih s id item₀ item h₀ h
    | ok s' =>
      simp only [Ledger.applyAll, happ] at h ⊢
      obtain ⟨itemF, hitF, hledg, hother, hcase⟩ := applyMovement_ok_cases s r s' happ
      obtain ⟨t, ht⟩ := applyAll_ledger_extends rs s'
      have hdrop1 : (Ledger.applyAll s' rs).ledger.drop s.ledger.length
          = (⟨r.item_id, r.mtype, r.quantity.toNat, r.discount_percent⟩ : Ledger.Entry) :: t := by
        rw [ht, hledg, List.append_assoc, List.singleton_append, List.drop_left]
      have hdrop2 : (Ledger.applyAll s' rs).ledger.drop s'.ledger.length = t := by
        rw [ht, List.drop_left]
      by_cases hid : id = r.item_id
      · subst hid
        rw [h₀] at hitF
        have hF := Option.some.inj hitF
        subst hF
        rcases hcase with ⟨hty, hupd⟩ | ⟨hty, hle, hupd⟩
        · have hrec := ih s' r.item_id _ item hupd h
          rw [hdrop2] at hrec
          rw [hdrop1]
          have hmty : r.mtype = Ledger.MType.purchase := by
            cases hmt : r.mtype
            · rfl
            · exact absurd hmt hty
          have hps : Ledger.purchaseSum r.item_id
              ((⟨r.item_id, r.mtype, r.quantity.toNat, r.discount_percent⟩ : Ledger.Entry) :: t)
              = (r.quantity.toNat : ℤ) + Ledger.purchaseSum r.item_id t := by
            simp [Ledger.purchaseSum, List.filter_cons, hmty]
          have hss : Ledger.saleSum r.item_id
              ((⟨r.item_id, r.mtype, r.quantity.toNat, r.discount_percent⟩ : Ledger.Entry) :: t)
              = Ledger.saleSum r.item_id t := by
            simp [Ledger.saleSum, List.filter_cons, hmty]
          rw [hps, hss]
          simp only at hrec
          push_cast at hrec
          omega
        · have hrec := ih s' r.item_id _ item hupd h
          rw [hdrop2] at hrec
          rw [hdrop1]
          have hps : Ledger.purchaseSum r.item_id
              ((⟨r.item_id, r.mtype, r.quantity.toNat, r.discount_percent⟩ : Ledger.Entry) :: t)
              = Ledger.purchaseSum r.item_id t := by
            simp [Ledger.purchaseSum, List.filter_cons, hty]
          have hss : Ledger.saleSum r.item_id
              ((⟨r.item_id, r.mtype, r.quantity.toNat, r.discount_percent⟩ : Ledger.Entry) :: t)
              = (r.quantity.toNat : ℤ) + Ledger.saleSum r.item_id t := by
            simp [Ledger.saleSum, List.filter_cons, hty]
          rw [hps, hss]
          simp only at hrec
          rw [Nat.cast_sub hle] at hrec
          omega
      · have hs' : s'.items id = s.items id := hother id hid
        have hrec := ih s' id item₀ item (by rw [hs']; exact h₀) h
        rw [hdrop2] at hrec
        rw [hdrop1]
        have hps : Ledger.purchaseSum id
            ((⟨r.item_id, r.mtype, r.quantity.toNat, r.discount_percent⟩ : Ledger.Entry) :: t)
            = Ledger.purchaseSum id t := by
          simp [Ledger.purchaseSum, List.filter_cons, Ne.symm hid]
        have hss : Ledger.saleSum id
            ((⟨r.item_id, r.mtype, r.quantity.toNat, r.discount_percent⟩ : Ledger.Entry) :: t)
            = Ledger.saleSum id t := by
          simp [Ledger.saleSum, List.filter_cons, Ne.symm hid]
        rw [hps, hss]
        exact hrec

/-- C1: after any sequence of movement requests, the quantity of every
item equals its initial quantity plus the summed quantities of its applied
PURCHASE movements minus the summed quantities of its applied SALE
movements, and the quantity is non-negative; since this holds for every
request sequence it holds at every point of the sequence. -/
theorem C1_stock_invariant (s₀ : Ledger.State) (reqs : List Ledger.Request) (id : ℕ)
    (item₀ item : Ledger.Item)
    (h₀ : s₀.items id = some item₀)
    (h : (Ledger.applyAll s₀ reqs).items id = some item) :
    (item.quantity : ℤ)
      = (item₀.quantity : ℤ)
        + Ledger.purchaseSum id ((Ledger.applyAll s₀ reqs).ledger.drop s₀.ledger.length)
        - Ledger.saleSum id ((Ledger.applyAll s₀ reqs).ledger.drop s₀.ledger.length)
    ∧ 0 ≤ (item.quantity : ℤ) :=
  ⟨applyAll_quantity reqs s₀ id item₀ item h₀ h, by positivity⟩

/-- C1 witness: the scenario of the specification — start at quantity 0,
purchase 10, sell 4, attempt to oversell 10 — ends at quantity 6 which
matches the purchase and sale sums of the applied records. -/
theorem C1_stock_invariant_witness :
    Ledger.stateSKU1.items 1 = some ⟨1, "SKU1", 0, 50⟩
    ∧ (Ledger.applyAll Ledger.stateSKU1 Ledger.requestsSKU1).items 1
        = some ⟨1, "SKU1", 6, 50⟩
    ∧ (((⟨1, "SKU1", 6, 50⟩ : Ledger.Item).quantity : ℤ)
        = ((⟨1, "SKU1", 0, 50⟩ : Ledger.Item).quantity : ℤ)
          + Ledger.purchaseSum 1
              ((Ledger.applyAll Ledger.stateSKU1 Ledger.requestsSKU1).ledger.drop
                Ledger.stateSKU1.ledger.length)
          - Ledger.saleSum 1
              ((Ledger.applyAll Ledger.stateSKU1 Ledger.requestsSKU1).ledger.drop
                Ledger.stateSKU1.ledger.length)
        ∧ 0 ≤ ((⟨1, "SKU1", 6, 50⟩ : Ledger.Item).quantity : ℤ)) :=
  ⟨by decide, by decide,
    C1_stock_invariant Ledger.stateSKU1 Ledger.requestsSKU1 1
      ⟨1, "SKU1", 0, 50⟩ ⟨1, "SKU1", 6, 50⟩ (by decide) (by decide)⟩

/-- C3: a SALE whose requested quantity exceeds the current quantity of
the item fails with InsufficientStock, and applying it leaves the state —
item quantities and ledger — exactly as before, so a read-back after the
rejection yields the pre-attempt state. -/
theorem C3_insufficient_stock (s : Ledger.State) (r : Ledger.Request)
    (item : Ledger.Item)
    (hit : s.items r.item_id = some item)
    (hq : 0 < r.quantity)
    (hty : r.mtype = Ledger.MType.sale)
    (hd0 : 0 ≤ r.discount_percent) (hd1 : r.discount_percent ≤ 100)
    (hexceed : item.quantity < r.quantity.toNat) :
    Ledger.applyMovement s r = .error .InsufficientStock
    ∧ Ledger.applyAll s [r] = s := by
  have happly : Ledger.applyMovement s r = .error .InsufficientStock := by
    simp only [Ledger.applyMovement, hit]
    rw [if_neg (by omega : ¬ r.quantity ≤ 0)]
    rw [if_neg (by rintro ⟨-, hlt | hlt⟩ <;> linarith)]
    rw [if_pos hty, if_pos hexceed]
  refine ⟨happly, ?_⟩
  simp only [Ledger.applyAll, happly]

/-- C3 witness: with quantity 6 in stock, selling 10 is rejected with
InsufficientStock and the state is unchanged. -/
theorem C3_insufficient_stock_witness :
    Ledger.stateQty6.items Ledger.requestOversell.item_id = some ⟨1, "SKU1", 6, 50⟩
    ∧ (0 : ℤ) < Ledger.requestOversell.quantity
    ∧ (⟨1, "SKU1", 6, 50⟩ : Ledger.Item).quantity < Ledger.requestOversell.quantity.toNat
    ∧ (Ledger.applyMovement Ledger.stateQty6 Ledger.requestOversell
          = .error .InsufficientStock
        ∧ Ledger.applyAll Ledger.stateQty6 [Ledger.requestOversell] = Ledger.stateQty6) :=
  ⟨by decide, by decide, by decide,
    C3_insufficient_stock Ledger.stateQty6 Ledger.requestOversell ⟨1, "SKU1", 6, 50⟩
      (by decide) (by decide) (by rfl) (by norm_num [Ledger.requestOversell])
      (by norm_num [Ledger.requestOversell]) (by decide)⟩

end Elles
